import Mathlib

/-!
Verification of the priority-queue translation service in `app/main.py`.

The development shallowly embeds the parts of the program the specification
talks about:

* the items of `task_queue` (tuples `(priority, created_time, text, future)`,
  ordered lexicographically, dequeued smallest-first as `asyncio.PriorityQueue`
  does);
* the background `worker_loop` (dequeue the minimal item, run the translation,
  resolve the item's future with the result or the exception, maintain the
  in-progress metric);
* the `translate` request handler (model check, priority validation, enqueue,
  request-counter increment, await).

Timestamps are modelled as natural-number clock readings; durations are
integers (differences of clock readings).  The translation model is an
abstract function `String → Except String String`: `translate_text` either
returns a translated string or raises.  Metric recorders are modelled as the
sequences of operations applied to them, since the Prometheus client library
is an external collaborator of the program.
-/

namespace MT

/-- `MIN_PRIORITY = 0` in `app/main.py`. -/
def MIN_PRIORITY : Int := 0

/-- `MAX_PRIORITY = 3` in `app/main.py`. -/
def MAX_PRIORITY : Int := 3

/-- One item of `task_queue`: the tuple `(priority, created_time, text, future)`.
The future is identified by the index `jobId` into the table of future states. -/
structure Entry where
  priority : Int
  created_at : Nat
  text : String
  jobId : Nat
  deriving DecidableEq, Repr, Inhabited

/-- Python's lexicographic comparison of the tuples `(priority, created_time,
text, ...)` put into `task_queue`.  (The fourth component, the future, is only
compared when the first three tie, which never happens for the inputs
considered here.) -/
def entryLt (a b : Entry) : Bool :=
  if a.priority < b.priority then true
  else if b.priority < a.priority then false
  else if a.created_at < b.created_at then true
  else if b.created_at < a.created_at then false
  else a.text < b.text

/-- `asyncio.PriorityQueue.get` returns the smallest queued tuple.  `popMin`
removes the (first-inserted) minimal entry from the queue contents.  It
coincides with `heapq.heappop` exactly when no two queued tuples tie on all
of (priority, created_time, text); on a full tie the real `heappop` compares
the `asyncio.Future`s and raises — that raising behavior is modelled
faithfully by `pyTupleLt`/`heappushPy`/`heappopPy` below. -/
def popMin : List Entry → Option (Entry × List Entry)
  | [] => none
  | e :: es =>
    match popMin es with
    | none => some (e, [])
    | some (m, rest) => if entryLt m e then some (m, e :: rest) else some (e, es)

/-- Draining the queue: the sequence of entries obtained by repeatedly calling
`get` until the queue is empty.  The fuel argument is the queue length. -/
def drainFuel : Nat → List Entry → List Entry
  | 0, _ => []
  | n + 1, q =>
    match popMin q with
    | none => []
    | some (m, rest) => m :: drainFuel n rest

/-- The dequeue order of a queue holding entries `q`. -/
def dequeueAll (q : List Entry) : List Entry :=
  drainFuel q.length q

/-! ### The worker loop -/

/-- The `result` dict built by `worker_loop` on success, which is also the
body of the `TranslateResponse` returned by the handler.  Durations are
integers: differences of natural-number clock readings. -/
structure TResult where
  original_text : String
  translated_text : String
  priority : Int
  processing_time : Int
  queued_time : Int
  model_loaded : Bool
  deriving DecidableEq, Repr

/-- One worker iteration's outcome for the entry `e` dequeued at time `t0`
and (on success) finished at time `t1`.  The translation model
`translate_text` is abstracted as `proc : String → Except String String`:
it returns the translated text or raises an exception message. -/
def workerResult (proc : String → Except String String) (e : Entry)
    (t0 t1 : Nat) : Except String TResult :=
  match proc e.text with
  | .ok tr =>
      .ok { original_text := e.text
            translated_text := tr
            priority := e.priority
            processing_time := (t1 : Int) - (t0 : Int)
            queued_time := (t0 : Int) - (e.created_at : Int)
            model_loaded := true }
  | .error msg => .error msg

/-- The state of one `asyncio.Future` created by the handler. -/
inductive FutureState where
  | pending
  | cancelled
  | resolvedOk (r : TResult)
  | resolvedErr (e : String)
  deriving DecidableEq, Repr

/-- The worker's write to a future, guarded by `if not future.cancelled()`:
a pending future receives the value; a cancelled future is skipped.  (An
already-resolved future keeps its value: `set_result` on it raises instead
of overwriting, and the raise is caught by the loop's outer handler.) -/
def writeFuture : FutureState → FutureState → FutureState
  | .pending, v => v
  | s, _ => s

/-- Worker-side resolution of future number `j` in the future table. -/
def resolveFuture (fs : List FutureState) (j : Nat) (v : FutureState) :
    List FutureState :=
  fs.set j (writeFuture (fs.getD j .pending) v)

/-- The worker-visible state: the queue contents, the table of futures, and
how many `time.time()` readings have been consumed so far. -/
structure WorkerState where
  queue : List Entry
  futures : List FutureState
  tick : Nat
  deriving DecidableEq, Repr

/-- One iteration of `worker_loop` in the tie-free regime (no two queued
tuples fully tied, so `popMin` agrees with `heappop` — see `heappopPy` for
the raising case): dequeue the minimal tuple, run the translation, and
resolve that job's future with the result dict or with the raised
exception.  `clock` is the sequence of `time.time()` readings; a successful
iteration reads the clock twice (`start_proc` and the reading for
`proc_time`), a failing one once. -/
def workerStep (proc : String → Except String String) (clock : Nat → Nat)
    (s : WorkerState) : WorkerState :=
  match popMin s.queue with
  | none => s
  | some (e, rest) =>
    let t0 := clock s.tick
    match workerResult proc e t0 (clock (s.tick + 1)) with
    | .ok r =>
        { queue := rest
          futures := resolveFuture s.futures e.jobId (.resolvedOk r)
          tick := s.tick + 2 }
    | .error msg =>
        { queue := rest
          futures := resolveFuture s.futures e.jobId (.resolvedErr msg)
          tick := s.tick + 1 }

/-- `n` iterations of the worker loop. -/
def workerRun (proc : String → Except String String) (clock : Nat → Nat) :
    Nat → WorkerState → WorkerState
  | 0, s => s
  | n + 1, s => workerRun proc clock n (workerStep proc clock s)

/-- The states visited by `n` iterations of the worker loop, the initial
state included. -/
def workerTrace (proc : String → Except String String) (clock : Nat → Nat) :
    Nat → WorkerState → List WorkerState
  | 0, s => [s]
  | n + 1, s => s :: workerTrace proc clock n (workerStep proc clock s)

/-- The state of future number `j` (absent indices read as pending). -/
def futureOf (s : WorkerState) (j : Nat) : FutureState :=
  s.futures.getD j .pending

/-- How often consecutive elements of a list differ: the number of times the
observed value changed along a trace. -/
def countChanges : List FutureState → Nat
  | [] => 0
  | [_] => 0
  | a :: b :: rest => (if a = b then 0 else 1) + countChanges (b :: rest)

/-- `f` is resolved the way `worker_loop` resolves the future of entry `e`
when the translation attempt returns `out`: on success with the result dict
for `e` (same input text, the translated text, `e`'s priority,
`model_loaded = True`), on failure with the raised exception. -/
def resolvedWith (e : Entry) (out : Except String String)
    (f : FutureState) : Bool :=
  match out, f with
  | .ok tr, .resolvedOk r =>
      r.original_text == e.text && r.translated_text == tr &&
        r.priority == e.priority && r.model_loaded == true
  | .error m, .resolvedErr msg => msg == m
  | _, _ => false

/-! ### Metric operations of one worker iteration -/

/-- The externally visible operations of one iteration of `worker_loop`, in
program order. -/
inductive WEvent where
  | observeQueueTime (label : String) (v : Int)
  | incInProgress (label : String)
  | invokeProcessor (text : String)
  | setResult (jobId : Nat)
  | setException (jobId : Nat)
  | decInProgress (label : String)
  | raisedAttributeError (attr : String)
  | taskDone
  deriving DecidableEq, Repr

/-- The operations one `worker_loop` iteration actually completes on entry
`e` dequeued at `t0`: observe the queue-time histogram, increment the
in-progress metric, call `translate_text`, resolve the future (result or
exception).  The `finally` block then evaluates
`IN_PROGRESS.labels(priority=...).dec()` — but `IN_PROGRESS` is declared as
a prometheus_client `Counter` (not a `Gauge`), and a `Counter` has no `dec`
method: the attribute lookup raises `AttributeError`, so no decrement is
performed and the following `task_queue.task_done()` is never reached; the
loop's outer `except Exception` catches the error and the next iteration
starts. -/
def workerIterEvents (proc : String → Except String String) (e : Entry)
    (t0 : Nat) : List WEvent :=
  [.observeQueueTime (toString e.priority) ((t0 : Int) - (e.created_at : Int)),
   .incInProgress (toString e.priority),
   .invokeProcessor e.text]
  ++ (match proc e.text with
      | .ok _ => [.setResult e.jobId]
      | .error _ => [.setException e.jobId])
  ++ [.raisedAttributeError "dec"]

/-- Effect of one worker operation on the in-progress metric value for a
given priority label. -/
def applyInProgress (label : String) (v : Int) : WEvent → Int
  | .incInProgress l => if l == label then v + 1 else v
  | .decInProgress l => if l == label then v - 1 else v
  | _ => v

/-! ### The real `heapq` behavior on tied tuples

`asyncio.PriorityQueue` stores the tuples `(priority, created_time, text,
future)` in a `heapq` heap.  Python's tuple comparison finds the first
component where the two tuples differ and compares there; when priority,
created time and text all coincide, it falls through to the two
`asyncio.Future` objects, which define no ordering — the comparison raises
`TypeError`.  The following definitions model `heapq.heappush` and
`heapq.heappop` with that fallible comparison, including the fact that list
mutations performed before the raise persist, exactly as in CPython's
`heapq`. -/

/-- Python's `<` on two queued tuples.  `.error ()` is the `TypeError`
raised when the comparison reaches the unorderable futures. -/
def pyTupleLt (a b : Entry) : Except Unit Bool :=
  if a.priority ≠ b.priority then .ok (a.priority < b.priority)
  else if a.created_at ≠ b.created_at then .ok (a.created_at < b.created_at)
  else if a.text ≠ b.text then .ok (a.text < b.text)
  else .error ()

/-- `heapq._siftdown(heap, startpos, pos)`: `newitem` (stored at `pos` on
entry) bubbles up while it compares strictly below its parent; parents are
copied down along the way and `newitem` is written at the final position.
On a `TypeError` the heap is returned as already mutated, as in Python.
`fuel` bounds the loop; every caller passes at least `pos + 1`, which the
strictly decreasing position can never exhaust. -/
def siftdownPy (newitem : Entry) : Nat → Nat → List Entry → Nat →
    Except Unit Unit × List Entry
  | 0, _, heap, pos => (.ok (), heap.set pos newitem)
  | fuel + 1, startpos, heap, pos =>
    if startpos < pos then
      let parentpos := (pos - 1) / 2
      let parent := heap.getD parentpos default
      match pyTupleLt newitem parent with
      | .error er => (.error er, heap)
      | .ok true => siftdownPy newitem fuel startpos (heap.set pos parent) parentpos
      | .ok false => (.ok (), heap.set pos newitem)
    else (.ok (), heap.set pos newitem)

/-- `heapq.heappush(heap, item)`: append `item`, then sift it down from the
last position. -/
def heappushPy (heap : List Entry) (item : Entry) : Except Unit Unit × List Entry :=
  let h := heap ++ [item]
  siftdownPy item h.length 0 h (h.length - 1)

/-- The child-descent loop of `heapq._siftup(heap, pos)`: move the smaller
child up into `pos` until a leaf is reached, returning the final position.
On a `TypeError` while comparing two children the heap is returned as
already mutated.  `fuel` bounds the loop; callers pass `endpos`, which the
strictly increasing position can never exhaust. -/
def siftupPy (endpos : Nat) : Nat → List Entry → Nat →
    Except Unit Unit × (List Entry × Nat)
  | 0, heap, pos => (.ok (), (heap, pos))
  | fuel + 1, heap, pos =>
    let childpos := 2 * pos + 1
    if childpos < endpos then
      let rightpos := childpos + 1
      match (if rightpos < endpos then
               pyTupleLt (heap.getD childpos default) (heap.getD rightpos default)
             else .ok true) with
      | .error er => (.error er, (heap, pos))
      | .ok lt =>
        let c := if lt then childpos else rightpos
        siftupPy endpos fuel (heap.set pos (heap.getD c default)) c
    else (.ok (), (heap, pos))

/-- `heapq._siftup(heap, pos)`: descend to a leaf, place `newitem` there,
then sift it down towards the root. -/
def siftupFullPy (heap : List Entry) (pos : Nat) : Except Unit Unit × List Entry :=
  let newitem := heap.getD pos default
  match siftupPy heap.length heap.length heap pos with
  | (.error er, (h, _)) => (.error er, h)
  | (.ok _, (h, p)) => siftdownPy newitem (p + 1) pos (h.set p newitem) p

/-- `heapq.heappop(heap)`: pop the last element; if the heap is still
nonempty, read the root as the value to return, overwrite the root with the
popped last element and call `_siftup`.  A `TypeError` raised inside
`_siftup` propagates after the root has already been overwritten: the read
minimum is lost — no caller ever receives it.  (Python raises `IndexError`
on an empty heap; the worker only pops after awaiting a nonempty queue, so
the empty case is modelled as `none`.) -/
def heappopPy (heap : List Entry) : Except Unit (Option Entry) × List Entry :=
  match heap.getLast? with
  | none => (.ok none, heap)
  | some lastelt =>
    let rest := heap.dropLast
    if rest.isEmpty then (.ok (some lastelt), rest)
    else
      let returnitem := rest.getD 0 default
      match siftupFullPy (rest.set 0 lastelt) 0 with
      | (.error er, h) => (.error er, h)
      | (.ok _, h) => (.ok (some returnitem), h)

/-! ### The `translate` request handler -/

/-- The `HTTPException`s raised by the `translate` handler. -/
inductive HError where
  | modelNotLoaded
  | badPriority
  | processingFailed (msg : String)
  deriving DecidableEq, Repr

/-- `status_code` of the raised `HTTPException`. -/
def HError.status : HError → Nat
  | .modelNotLoaded => 500
  | .badPriority => 400
  | .processingFailed _ => 500

/-- `detail` of the raised `HTTPException`. -/
def HError.detail : HError → String
  | .modelNotLoaded => "Model not loaded"
  | .badPriority =>
      "priority must be between " ++ toString MIN_PRIORITY ++ " and " ++
        toString MAX_PRIORITY
  | .processingFailed msg => msg

/-- The service state the `translate` handler reads and writes: whether
`model` and `tokenizer` are loaded, the queue contents, and the sequence of
labels by which `REQUEST_COUNTER` has been incremented. -/
structure ServerState where
  modelLoaded : Bool
  tokenizerLoaded : Bool
  queue : List Entry
  counterLog : List String
  deriving DecidableEq, Repr

/-- The synchronous part of the `translate` handler, up to the `await`:
reject with 500 if `model is None or tokenizer is None`; reject with 400 if
the priority is outside `[MIN_PRIORITY, MAX_PRIORITY]`; otherwise put the
tuple `(priority, created_at, text, future)` into the queue and increment
`REQUEST_COUNTER` labeled `str(priority)`.  The returned state is the
post-state in all cases (a raise leaves the state untouched). -/
def translateSubmitRun (st : ServerState) (text : String) (prio : Int)
    (now : Nat) (jobId : Nat) : Except HError Unit × ServerState :=
  if st.modelLoaded = false ∨ st.tokenizerLoaded = false then
    (.error .modelNotLoaded, st)
  else if prio < MIN_PRIORITY ∨ prio > MAX_PRIORITY then
    (.error .badPriority, st)
  else
    (.ok (), { st with
      queue := st.queue ++ [{ priority := prio, created_at := now,
                              text := text, jobId := jobId }]
      counterLog := st.counterLog ++ [toString prio] })

/-- The externally visible operations of the `translate` handler, in
program order. -/
inductive HEvent where
  | createdFuture (jobId : Nat)
  | enqueued (priority : Int) (created_at : Nat) (text : String) (jobId : Nat)
  | incRequestCounter (label : String)
  | awaitedFuture (jobId : Nat)
  | observedLatency (label : String) (v : Int)
  deriving DecidableEq, Repr

/-- The operation sequence of the `translate` handler: after the model check
and the priority validation it creates the future, puts the job tuple into
the queue, increments the request counter, awaits the future, and — when the
await returns a result rather than raising — observes the end-to-end latency.
`now` is `start_total = created_at` and `tEnd` the `time.time()` reading
after the await. -/
def translateEvents (st : ServerState) (text : String) (prio : Int)
    (now tEnd : Nat) (jobId : Nat) (outcome : Except String TResult) :
    Except HError (List HEvent) :=
  if st.modelLoaded = false ∨ st.tokenizerLoaded = false then
    .error .modelNotLoaded
  else if prio < MIN_PRIORITY ∨ prio > MAX_PRIORITY then
    .error .badPriority
  else
    .ok ([.createdFuture jobId,
          .enqueued prio now text jobId,
          .incRequestCounter (toString prio),
          .awaitedFuture jobId]
      ++ (match outcome with
          | .ok _ =>
              [.observedLatency (toString prio) ((tEnd : Int) - (now : Int))]
          | .error _ => []))

/-- The tail of the `translate` handler: the `await future` either returns
the worker's result dict — returned to the caller as the
`TranslateResponse` — or raises, which the handler converts into an
`HTTPException` with status 500 carrying the exception text. -/
def translateRespond (outcome : Except String TResult) :
    Except HError TResult :=
  match outcome with
  | .ok r => .ok r
  | .error msg => .error (.processingFailed msg)

end MT

namespace MT

/-! Basic facts about the tuple order, `popMin` and `dequeueAll`. -/

theorem entryLt_iff {a b : Entry} : entryLt a b = true ↔
    (a.priority < b.priority ∨ (a.priority = b.priority ∧
      (a.created_at < b.created_at ∨ (a.created_at = b.created_at ∧ a.text < b.text)))) := by
  unfold entryLt
  split_ifs with h1 h2 h3 h4
  · simp; omega
  · simp; omega
  · simp; omega
  · simp; omega
  · have hp : a.priority = b.priority := le_antisymm (not_lt.mp h2) (not_lt.mp h1)
    have hc : a.created_at = b.created_at := le_antisymm (not_lt.mp h4) (not_lt.mp h3)
    simp [hp, hc]

theorem entryLt_asymm {a b : Entry} (h : entryLt a b = true) : entryLt b a = false := by
  rw [Bool.eq_false_iff]
  intro hba
  rw [entryLt_iff] at h hba
  rcases h with h | ⟨hp, h⟩ <;> rcases hba with hba | ⟨hp', hba⟩
  · exact absurd hba (lt_asymm h)
  · omega
  · omega
  · rcases h with h | ⟨hc, h⟩ <;> rcases hba with hba | ⟨hc', hba⟩
    · omega
    · omega
    · omega
    · exact absurd hba (lt_asymm h)

theorem entryLe_trans {a b c : Entry} (hba : entryLt b a = false)
    (hcb : entryLt c b = false) : entryLt c a = false := by
  rw [Bool.eq_false_iff] at hba hcb ⊢
  intro hca
  rw [entryLt_iff] at hca
  by_cases hab : entryLt a b = true
  · rw [entryLt_iff] at hab
    apply hcb
    rw [entryLt_iff]
    rcases hca with hca | ⟨hp, hca⟩ <;> rcases hab with hab | ⟨hp', hab⟩
    · exact Or.inl (hca.trans hab)
    · exact Or.inl (by omega)
    · exact Or.inl (by omega)
    · refine Or.inr ⟨by omega, ?_⟩
      rcases hca with hca | ⟨hc, hca⟩ <;> rcases hab with hab | ⟨hc', hab⟩
      · exact Or.inl (by omega)
      · exact Or.inl (by omega)
      · exact Or.inl (by omega)
      · exact Or.inr ⟨by omega, hca.trans hab⟩
  · -- `a ≤ b` and `b ≤ a`: the keys agree componentwise, so `c < a` gives `c < b`.
    replace hab := Bool.eq_false_iff.mpr hab
    rw [Bool.eq_false_iff] at hab
    have hab' : ¬ entryLt a b = true := hab
    rw [entryLt_iff] at hab'
    push_neg at hab'
    apply hcb
    rw [entryLt_iff]
    have hba' : ¬ entryLt b a = true := hba
    rw [entryLt_iff] at hba'
    push_neg at hba'
    have hp : a.priority = b.priority := le_antisymm hba'.1 hab'.1
    have hc : a.created_at = b.created_at :=
      le_antisymm (hba'.2 hp.symm).1 (hab'.2 hp).1
    have ht : a.text = b.text :=
      le_antisymm ((hba'.2 hp.symm).2 hc.symm) ((hab'.2 hp).2 hc)
    rcases hca with hca | ⟨hp', hca⟩
    · exact Or.inl (by omega)
    · refine Or.inr ⟨by omega, ?_⟩
      rcases hca with hca | ⟨hc', hca⟩
      · exact Or.inl (by omega)
      · exact Or.inr ⟨by omega, ht ▸ hca⟩

theorem popMin_eq_none {q : List Entry} : popMin q = none ↔ q = [] := by
  cases q with
  | nil => simp [popMin]
  | cons e es =>
    simp only [popMin]
    cases h : popMin es with
    | none => simp
    | some p =>
      cases p with
      | mk m rest => by_cases hlt : entryLt m e <;> simp [hlt]

theorem popMin_perm {q : List Entry} {m : Entry} {rest : List Entry}
    (h : popMin q = some (m, rest)) : (m :: rest).Perm q := by
  induction q generalizing m rest with
  | nil => simp [popMin] at h
  | cons e es ih =>
    simp only [popMin] at h
    cases hes : popMin es with
    | none =>
      rw [hes] at h
      have : es = [] := popMin_eq_none.mp hes
      subst this
      simp at h
      obtain ⟨h1, h2⟩ := h
      subst h1; subst h2
      exact List.Perm.refl _
    | some p =>
      cases p with
      | mk m' rest' =>
        rw [hes] at h
        by_cases hlt : entryLt m' e
        · simp [hlt] at h
          obtain ⟨h1, h2⟩ := h
          subst h1; subst h2
          exact (List.Perm.swap _ _ _).trans ((ih hes).cons e)
        · simp [hlt] at h
          obtain ⟨h1, h2⟩ := h
          subst h1; subst h2
          exact List.Perm.refl _

theorem popMin_min {q : List Entry} {m : Entry} {rest : List Entry}
    (h : popMin q = some (m, rest)) : ∀ x ∈ rest, entryLt x m = false := by
  induction q generalizing m rest with
  | nil => simp [popMin] at h
  | cons e es ih =>
    simp only [popMin] at h
    cases hes : popMin es with
    | none =>
      rw [hes] at h
      simp at h
      obtain ⟨_, h2⟩ := h
      subst h2
      intro x hx
      simp at hx
    | some p =>
      cases p with
      | mk m' rest' =>
        rw [hes] at h
        by_cases hlt : entryLt m' e
        · simp [hlt] at h
          obtain ⟨h1, h2⟩ := h
          subst h1; subst h2
          intro x hx
          cases hx with
          | head => exact entryLt_asymm hlt
          | tail _ hx => exact ih hes x hx
        · simp [hlt] at h
          obtain ⟨h1, h2⟩ := h
          subst h1; subst h2
          intro x hx
          have hx' : x ∈ m' :: rest' := (popMin_perm hes).mem_iff.mpr hx
          have hm'e : entryLt m' e = false := Bool.eq_false_iff.mpr hlt
          cases hx' with
          | head => exact hm'e
          | tail _ hx' => exact entryLe_trans hm'e (ih hes x hx')

theorem popMin_length {q : List Entry} {m : Entry} {rest : List Entry}
    (h : popMin q = some (m, rest)) : rest.length + 1 = q.length := by
  have := (popMin_perm h).length_eq
  simpa using this

theorem drainFuel_perm : ∀ (n : Nat) (q : List Entry), q.length ≤ n →
    (drainFuel n q).Perm q := by
  intro n
  induction n with
  | zero =>
    intro q hq
    have : q = [] := List.length_eq_zero.mp (Nat.le_zero.mp hq)
    subst this
    simp [drainFuel]
  | succ n ih =>
    intro q hq
    cases hp : popMin q with
    | none =>
      have : q = [] := popMin_eq_none.mp hp
      subst this
      simp [drainFuel, popMin]
    | some p =>
      cases p with
      | mk m rest =>
        simp only [drainFuel, hp]
        have hlen : rest.length ≤ n := by
          have := popMin_length hp
          omega
        exact ((ih rest hlen).cons m).trans (popMin_perm hp)

theorem dequeueAll_perm (q : List Entry) : (dequeueAll q).Perm q :=
  drainFuel_perm q.length q (Nat.le_refl _)

/-- Repeatedly dequeuing yields a list that is sorted for the queue's tuple
order: no later element is strictly below an earlier one. -/
theorem drainFuel_pairwise : ∀ (n : Nat) (q : List Entry), q.length ≤ n →
    List.Pairwise (fun a b => entryLt b a = false) (drainFuel n q) := by
  intro n
  induction n with
  | zero => intro q _; simp [drainFuel]
  | succ n ih =>
    intro q hq
    cases hp : popMin q with
    | none => simp [drainFuel, hp]
    | some p =>
      cases p with
      | mk m rest =>
        simp only [drainFuel, hp]
        have hlen : rest.length ≤ n := by
          have := popMin_length hp
          omega
        refine List.Pairwise.cons ?_ (ih rest hlen)
        intro b hb
        have hb' : b ∈ rest := (drainFuel_perm n rest hlen).mem_iff.mp hb
        exact popMin_min hp b hb'

theorem dequeueAll_pairwise (q : List Entry) :
    List.Pairwise (fun a b => entryLt b a = false) (dequeueAll q) :=
  drainFuel_pairwise q.length q (Nat.le_refl _)

end MT

namespace MT

/-! ### Worker-loop lemmas: effect of one step on queue and futures -/

theorem resolveFuture_length (fs : List FutureState) (j : Nat) (v : FutureState) :
    (resolveFuture fs j v).length = fs.length := by
  simp [resolveFuture]

theorem futureOf_resolveFuture_self {fs : List FutureState} {j : Nat}
    (v : FutureState) (hj : j < fs.length) :
    (resolveFuture fs j v).getD j .pending = writeFuture (fs.getD j .pending) v := by
  simp [resolveFuture, List.getElem?_set_self hj]

theorem futureOf_resolveFuture_ne {fs : List FutureState} {i j : Nat}
    (v : FutureState) (hne : i ≠ j) :
    (resolveFuture fs i v).getD j .pending = fs.getD j .pending := by
  simp [resolveFuture, List.getElem?_set_ne hne]

theorem workerStep_of_popMin_none {proc : String → Except String String}
    {clock : Nat → Nat} {s : WorkerState} (h : popMin s.queue = none) :
    workerStep proc clock s = s := by
  simp [workerStep, h]

theorem workerStep_queue {proc : String → Except String String}
    {clock : Nat → Nat} {s : WorkerState} {e : Entry} {rest : List Entry}
    (h : popMin s.queue = some (e, rest)) :
    (workerStep proc clock s).queue = rest := by
  simp only [workerStep, h]
  cases hw : workerResult proc e (clock s.tick) (clock (s.tick + 1)) <;> rfl

theorem workerStep_futures_length {proc : String → Except String String}
    {clock : Nat → Nat} {s : WorkerState} :
    (workerStep proc clock s).futures.length = s.futures.length := by
  simp only [workerStep]
  cases h : popMin s.queue with
  | none => rfl
  | some p =>
    cases p with
    | mk e rest =>
      cases hw : workerResult proc e (clock s.tick) (clock (s.tick + 1)) <;>
        simp [hw, resolveFuture_length]

/-- A step that dequeues `e` resolves `e`'s pending future with the
translation outcome for `e`'s text. -/
theorem workerStep_resolves_self {proc : String → Except String String}
    {clock : Nat → Nat} {s : WorkerState} {e : Entry} {rest : List Entry}
    (h : popMin s.queue = some (e, rest)) (hj : e.jobId < s.futures.length)
    (hpend : futureOf s e.jobId = .pending) :
    resolvedWith e (proc e.text) (futureOf (workerStep proc clock s) e.jobId) = true ∧
    futureOf (workerStep proc clock s) e.jobId ≠ .pending := by
  cases hpc : proc e.text with
  | ok tr =>
    have hw : workerResult proc e (clock s.tick) (clock (s.tick + 1)) =
        .ok { original_text := e.text
              translated_text := tr
              priority := e.priority
              processing_time := (clock (s.tick + 1) : Int) - (clock s.tick : Int)
              queued_time := (clock s.tick : Int) - (e.created_at : Int)
              model_loaded := true } := by
      simp [workerResult, hpc]
    simp only [workerStep, h, hw, futureOf] at *
    rw [futureOf_resolveFuture_self _ hj, hpend]
    simp [writeFuture, resolvedWith, hpc]
  | error msg =>
    have hw : workerResult proc e (clock s.tick) (clock (s.tick + 1)) =
        .error msg := by
      simp [workerResult, hpc]
    simp only [workerStep, h, hw, futureOf] at *
    rw [futureOf_resolveFuture_self _ hj, hpend]
    simp [writeFuture, resolvedWith, hpc]

/-- A step that dequeues an entry of another job leaves `j`'s future alone. -/
theorem workerStep_preserves_other {proc : String → Except String String}
    {clock : Nat → Nat} {s : WorkerState} {e : Entry} {rest : List Entry} {j : Nat}
    (h : popMin s.queue = some (e, rest)) (hne : e.jobId ≠ j) :
    futureOf (workerStep proc clock s) j = futureOf s j := by
  simp only [workerStep, h, futureOf]
  cases hw : workerResult proc e (clock s.tick) (clock (s.tick + 1)) <;>
    simp only [hw] <;> exact futureOf_resolveFuture_ne _ hne

/-- Once job `j` is no longer queued, a worker step changes neither its
future nor that fact. -/
theorem workerStep_stable {proc : String → Except String String}
    {clock : Nat → Nat} {s : WorkerState} {j : Nat}
    (hj : j ∉ s.queue.map Entry.jobId) :
    futureOf (workerStep proc clock s) j = futureOf s j ∧
    j ∉ (workerStep proc clock s).queue.map Entry.jobId := by
  cases h : popMin s.queue with
  | none => rw [workerStep_of_popMin_none h]; exact ⟨rfl, hj⟩
  | some p =>
    cases p with
    | mk e rest =>
      have hmem : e ∈ s.queue := (popMin_perm h).mem_iff.mp (List.mem_cons_self e rest)
      have hne : e.jobId ≠ j := by
        intro hcontra
        exact hj (hcontra ▸ List.mem_map_of_mem Entry.jobId hmem)
      refine ⟨workerStep_preserves_other h hne, ?_⟩
      rw [workerStep_queue h]
      intro hcontra
      obtain ⟨x, hx, hxj⟩ := List.mem_map.mp hcontra
      have : x ∈ s.queue := (popMin_perm h).mem_iff.mp (List.mem_cons_of_mem e hx)
      exact hj (hxj ▸ List.mem_map_of_mem Entry.jobId this)

theorem workerRun_stable {proc : String → Except String String}
    {clock : Nat → Nat} : ∀ {n : Nat} {s : WorkerState} {j : Nat},
    j ∉ s.queue.map Entry.jobId →
    futureOf (workerRun proc clock n s) j = futureOf s j := by
  intro n
  induction n with
  | zero => intro s j _; rfl
  | succ n ih =>
    intro s j hj
    have hstep := @workerStep_stable proc clock s j hj
    calc futureOf (workerRun proc clock (n + 1) s) j
        = futureOf (workerRun proc clock n (workerStep proc clock s)) j := rfl
      _ = futureOf (workerStep proc clock s) j := ih hstep.2
      _ = futureOf s j := hstep.1

theorem workerTrace_stable {proc : String → Except String String}
    {clock : Nat → Nat} : ∀ {n : Nat} {s : WorkerState} {j : Nat},
    j ∉ s.queue.map Entry.jobId →
    (workerTrace proc clock n s).map (fun st => futureOf st j) =
      List.replicate (n + 1) (futureOf s j) := by
  intro n
  induction n with
  | zero => intro s j _; rfl
  | succ n ih =>
    intro s j hj
    have hstep := @workerStep_stable proc clock s j hj
    show futureOf s j :: (workerTrace proc clock n (workerStep proc clock s)).map _ = _
    rw [ih hstep.2, hstep.1]
    simp [List.replicate_succ]

theorem workerTrace_cons (proc : String → Except String String)
    (clock : Nat → Nat) (n : Nat) (s : WorkerState) :
    ∃ t, workerTrace proc clock n s = s :: t := by
  cases n with
  | zero => exact ⟨[], rfl⟩
  | succ n => exact ⟨_, rfl⟩

/-! ### Change counting along a trace -/

theorem countChanges_cons_eq {a : FutureState} {l : List FutureState} :
    countChanges (a :: a :: l) = countChanges (a :: l) := by
  show (if a = a then 0 else 1) + countChanges (a :: l) = countChanges (a :: l)
  simp

theorem countChanges_replicate : ∀ (n : Nat) (v : FutureState),
    countChanges (List.replicate n v) = 0 := by
  intro n
  induction n with
  | zero => intro v; rfl
  | succ n ih =>
    intro v
    cases n with
    | zero => rfl
    | succ m =>
      have h2 : List.replicate (m + 2) v = v :: v :: List.replicate m v := rfl
      have h1 : List.replicate (m + 1) v = v :: List.replicate m v := rfl
      rw [h2]
      calc countChanges (v :: v :: List.replicate m v)
          = countChanges (v :: List.replicate m v) := countChanges_cons_eq
        _ = 0 := by rw [← h1]; exact ih v

theorem countChanges_cons_replicate {a v : FutureState} (n : Nat) (h : a ≠ v) :
    countChanges (a :: List.replicate (n + 1) v) = 1 := by
  have h1 : List.replicate (n + 1) v = v :: List.replicate n v := rfl
  rw [h1]
  show (if a = v then 0 else 1) + countChanges (v :: List.replicate n v) = 1
  rw [if_neg h, ← h1, countChanges_replicate]

/-- Exactly-once lemma for the tie-free regime of the worker model.  If job
`e` is queued (and no job id is queued twice) and its future is pending,
then `n ≥ queue length` worker iterations resolve `e`'s future with the
translation outcome of `e.text`, and the observed value of that future
changes exactly once along the whole trace.  This describes the loop only
while no dequeue meets a full (priority, created_time, text) tie; on such a
tie the real `heappop` raises and can drop a job (`heappopPy` below), which
is why no claim-level exactly-once statement is made. -/
theorem worker_resolves_pending (proc : String → Except String String)
    (clock : Nat → Nat) : ∀ (n : Nat) (s : WorkerState) (e : Entry),
    e ∈ s.queue → (s.queue.map Entry.jobId).Nodup →
    e.jobId < s.futures.length → futureOf s e.jobId = .pending →
    s.queue.length ≤ n →
    resolvedWith e (proc e.text)
      (futureOf (workerRun proc clock n s) e.jobId) = true ∧
    countChanges ((workerTrace proc clock n s).map
      (fun st => futureOf st e.jobId)) = 1 := by
  intro n
  induction n with
  | zero =>
    intro s e he _ _ _ hn
    have : 0 < s.queue.length := List.length_pos.mpr (List.ne_nil_of_mem he)
    omega
  | succ n ih =>
    intro s e he hnodup hj hpend hn
    cases hp : popMin s.queue with
    | none => exact absurd (popMin_eq_none.mp hp) (List.ne_nil_of_mem he)
    | some p =>
      cases p with
      | mk m rest =>
        have hqueue : (workerStep proc clock s).queue = rest := workerStep_queue hp
        have hperm := popMin_perm hp
        have hnodup' : ((m :: rest).map Entry.jobId).Nodup :=
          ((hperm.map Entry.jobId).nodup_iff).mpr hnodup
        rw [List.map_cons] at hnodup'
        obtain ⟨hhead, htail⟩ := List.nodup_cons.mp hnodup'
        by_cases hme : m = e
        · subst hme
          have hres := @workerStep_resolves_self proc clock s m rest hp hj hpend
          have hjout1 : m.jobId ∉ (workerStep proc clock s).queue.map Entry.jobId := by
            rw [hqueue]; exact hhead
          constructor
          · show resolvedWith m (proc m.text)
              (futureOf (workerRun proc clock n (workerStep proc clock s)) m.jobId) = true
            rw [workerRun_stable hjout1]
            exact hres.1
          · show countChanges ((s :: workerTrace proc clock n (workerStep proc clock s)).map
              (fun st => futureOf st m.jobId)) = 1
            rw [List.map_cons, workerTrace_stable hjout1, hpend]
            exact countChanges_cons_replicate n (fun hcon => hres.2 hcon.symm)
        · have hein : e ∈ m :: rest := hperm.mem_iff.mpr he
          have herest : e ∈ rest := by
            cases hein with
            | head => exact absurd rfl hme
            | tail _ h => exact h
          have hjne : m.jobId ≠ e.jobId := by
            intro hcon
            exact hhead (hcon ▸ List.mem_map_of_mem Entry.jobId herest)
          have hfut1 : futureOf (workerStep proc clock s) e.jobId = futureOf s e.jobId :=
            workerStep_preserves_other hp hjne
          have he1 : e ∈ (workerStep proc clock s).queue := by
            rw [hqueue]; exact herest
          have hnodup1 : ((workerStep proc clock s).queue.map Entry.jobId).Nodup := by
            rw [hqueue]; exact htail
          have hj1 : e.jobId < (workerStep proc clock s).futures.length := by
            rw [workerStep_futures_length]; exact hj
          have hpend1 : futureOf (workerStep proc clock s) e.jobId = .pending :=
            hfut1.trans hpend
          have hn1 : (workerStep proc clock s).queue.length ≤ n := by
            rw [hqueue]
            have := popMin_length hp
            omega
          have IH := ih (workerStep proc clock s) e he1 hnodup1 hj1 hpend1 hn1
          refine ⟨IH.1, ?_⟩
          show countChanges ((s :: workerTrace proc clock n (workerStep proc clock s)).map
            (fun st => futureOf st e.jobId)) = 1
          obtain ⟨t, ht⟩ := workerTrace_cons proc clock n (workerStep proc clock s)
          rw [List.map_cons, ht, List.map_cons]
          have hhd : futureOf s e.jobId = futureOf (workerStep proc clock s) e.jobId :=
            hfut1.symm
          rw [hhd, countChanges_cons_eq]
          have := IH.2
          rw [ht, List.map_cons] at this
          exact this

/-- With enough fuel the worker loop drains the queue completely. -/
theorem workerRun_queue_nil (proc : String → Except String String)
    (clock : Nat → Nat) : ∀ (n : Nat) (s : WorkerState),
    s.queue.length ≤ n → (workerRun proc clock n s).queue = [] := by
  intro n
  induction n with
  | zero =>
    intro s hn
    exact List.length_eq_zero.mp (Nat.le_zero.mp hn)
  | succ n ih =>
    intro s hn
    cases hp : popMin s.queue with
    | none =>
      show (workerRun proc clock n (workerStep proc clock s)).queue = []
      rw [workerStep_of_popMin_none hp]
      apply ih
      have : s.queue = [] := popMin_eq_none.mp hp
      simp [this]
    | some p =>
      cases p with
      | mk m rest =>
        show (workerRun proc clock n (workerStep proc clock s)).queue = []
        apply ih
        rw [workerStep_queue hp]
        have := popMin_length hp
        omega

end MT

namespace MT

/-- C1: for every sequence of enqueues with priorities in `[0,3]` and strictly
increasing enqueue timestamps, the dequeue sequence is sorted by priority
ascending (numerically lowest first), ties broken by earliest `created_at`. -/
theorem dequeue_order_priority_then_fifo (q : List Entry)
    (_hpr : ∀ e ∈ q, MIN_PRIORITY ≤ e.priority ∧ e.priority ≤ MAX_PRIORITY)
    (hts : q.Pairwise (fun a b => a.created_at < b.created_at)) :
    List.Pairwise (fun a b => a.priority < b.priority ∨
      (a.priority = b.priority ∧ a.created_at < b.created_at)) (dequeueAll q) := by
  have hne : q.Pairwise (fun a b => a.created_at ≠ b.created_at) :=
    hts.imp (fun h => Nat.ne_of_lt h)
  have hne' : (dequeueAll q).Pairwise (fun a b => a.created_at ≠ b.created_at) :=
    ((dequeueAll_perm q).pairwise_iff (fun h => Ne.symm h)).mpr hne
  have hle := dequeueAll_pairwise q
  refine (hle.and hne').imp ?_
  intro a b hab
  obtain ⟨hba, hnab⟩ := hab
  have hba' : ¬ entryLt b a = true := by simp [hba]
  rw [entryLt_iff] at hba'
  push_neg at hba'
  rcases lt_trichotomy a.priority b.priority with h | h | h
  · exact Or.inl h
  · refine Or.inr ⟨h, ?_⟩
    have := (hba'.2 h.symm).1
    omega
  · exact absurd h (not_lt.mpr hba'.1)

/-- C1, witness: the spec's scenario.  Enqueue priorities `[3, 0, 2, 0]` at
strictly increasing timestamps `0, 1, 2, 3`; the four dequeues return the
first-enqueued priority-0 job (timestamp 1), then the second one
(timestamp 3), then the priority-2 job, then the priority-3 job. -/
theorem dequeue_order_priority_then_fifo_witness :
    (∀ e ∈ [Entry.mk 3 0 "t0" 0, Entry.mk 0 1 "t1" 1,
            Entry.mk 2 2 "t2" 2, Entry.mk 0 3 "t3" 3],
        MIN_PRIORITY ≤ e.priority ∧ e.priority ≤ MAX_PRIORITY) ∧
    [Entry.mk 3 0 "t0" 0, Entry.mk 0 1 "t1" 1, Entry.mk 2 2 "t2" 2,
      Entry.mk 0 3 "t3" 3].Pairwise (fun a b => a.created_at < b.created_at) ∧
    List.Pairwise (fun a b => a.priority < b.priority ∨
        (a.priority = b.priority ∧ a.created_at < b.created_at))
      (dequeueAll [Entry.mk 3 0 "t0" 0, Entry.mk 0 1 "t1" 1,
        Entry.mk 2 2 "t2" 2, Entry.mk 0 3 "t3" 3]) ∧
    dequeueAll [Entry.mk 3 0 "t0" 0, Entry.mk 0 1 "t1" 1,
        Entry.mk 2 2 "t2" 2, Entry.mk 0 3 "t3" 3] =
      [Entry.mk 0 1 "t1" 1, Entry.mk 0 3 "t3" 3,
        Entry.mk 2 2 "t2" 2, Entry.mk 3 0 "t0" 0] :=
  ⟨by decide, by decide,
    dequeue_order_priority_then_fifo _ (by decide) (by decide), by decide⟩


end MT


namespace MT

/-- C7: a successful submission's response is the worker's result dict: it
carries the original input text, the translated output, the submitted
priority, a strictly positive processing time, a nonnegative queued time and
`model_loaded = True`. -/
theorem successful_response_contents
    (proc : String → Except String String) (e : Entry) (t0 t1 : Nat)
    (tr : String) (hok : proc e.text = .ok tr)
    (hq : e.created_at ≤ t0) (hproc : t0 < t1) :
    ∃ r, translateRespond (workerResult proc e t0 t1) = .ok r ∧
      r.original_text = e.text ∧ r.translated_text = tr ∧
      r.priority = e.priority ∧ 0 < r.processing_time ∧
      0 ≤ r.queued_time ∧ r.model_loaded = true := by
  simp only [workerResult, hok, translateRespond]
  refine ⟨_, rfl, rfl, rfl, rfl, ?_, ?_, rfl⟩
  · simp only []
    omega
  · simp only []
    omega

/-- C7, witness: priority 1, payload `"hello"`, processor returns
`"bonjour"`, dequeued at time 5 (enqueued at 3) and finished at time 7. -/
theorem successful_response_contents_witness :
    ((fun _ => (Except.ok "bonjour" : Except String String))
        (Entry.mk 1 3 "hello" 0).text = Except.ok "bonjour") ∧
    ((Entry.mk 1 3 "hello" 0).created_at ≤ 5) ∧ ((5 : Nat) < 7) ∧
    (∃ r, translateRespond (workerResult
        (fun _ => (Except.ok "bonjour" : Except String String))
        (Entry.mk 1 3 "hello" 0) 5 7) = .ok r ∧
      r.original_text = (Entry.mk 1 3 "hello" 0).text ∧
      r.translated_text = "bonjour" ∧
      r.priority = (Entry.mk 1 3 "hello" 0).priority ∧
      0 < r.processing_time ∧ 0 ≤ r.queued_time ∧ r.model_loaded = true) :=
  ⟨rfl, by decide, by decide,
    successful_response_contents
      (fun _ => (Except.ok "bonjour" : Except String String))
      (Entry.mk 1 3 "hello" 0) 5 7 "bonjour" rfl (by decide) (by decide)⟩

/-- C8: while `model` or `tokenizer` is not loaded, every submission is
rejected synchronously with the 500 "Model not loaded" server error; the
handler state — in particular the queue — is untouched, so no job is
created and nothing is enqueued. -/
theorem model_unavailable_rejected_synchronously
    (st : ServerState) (text : String) (prio : Int) (now jobId : Nat)
    (h : st.modelLoaded = false ∨ st.tokenizerLoaded = false) :
    translateSubmitRun st text prio now jobId = (.error .modelNotLoaded, st) ∧
    HError.status .modelNotLoaded = 500 ∧
    (translateSubmitRun st text prio now jobId).2.queue = st.queue ∧
    (translateSubmitRun st text prio now jobId).2.counterLog = st.counterLog := by
  unfold translateSubmitRun
  rw [if_pos h]
  exact ⟨rfl, rfl, rfl, rfl⟩

/-- C8, witness. -/
theorem model_unavailable_rejected_synchronously_witness :
    ((ServerState.mk false false [] []).modelLoaded = false ∨
      (ServerState.mk false false [] []).tokenizerLoaded = false) ∧
    (translateSubmitRun (ServerState.mk false false [] []) "hello" 2 0 0 =
      (.error .modelNotLoaded, ServerState.mk false false [] []) ∧
    HError.status .modelNotLoaded = 500 ∧
    (translateSubmitRun (ServerState.mk false false [] []) "hello" 2 0 0).2.queue =
      (ServerState.mk false false [] []).queue ∧
    (translateSubmitRun (ServerState.mk false false [] []) "hello" 2 0 0).2.counterLog =
      (ServerState.mk false false [] []).counterLog) :=
  ⟨Or.inl rfl, model_unavailable_rejected_synchronously
    (ServerState.mk false false [] []) "hello" 2 0 0 (Or.inl rfl)⟩

/-- C9: the model-availability check precedes the priority validation: with
the model not loaded, even an out-of-range priority is answered with the 500
"Model not loaded" error, never with the 400 validation error. -/
theorem model_check_precedes_priority_validation
    (st : ServerState) (text : String) (prio : Int) (now jobId : Nat)
    (hm : st.modelLoaded = false ∨ st.tokenizerLoaded = false)
    (_hp : prio < MIN_PRIORITY ∨ MAX_PRIORITY < prio) :
    (translateSubmitRun st text prio now jobId).1 = .error .modelNotLoaded ∧
    (translateSubmitRun st text prio now jobId).1 ≠ .error .badPriority ∧
    HError.status .modelNotLoaded = 500 ∧
    HError.detail .modelNotLoaded = "Model not loaded" := by
  unfold translateSubmitRun
  rw [if_pos hm]
  refine ⟨rfl, ?_, rfl, rfl⟩
  intro hcon
  exact absurd (Except.error.inj hcon) (by simp)

/-- C9, witness: model not loaded, priority 9. -/
theorem model_check_precedes_priority_validation_witness :
    ((ServerState.mk false true [] []).modelLoaded = false ∨
      (ServerState.mk false true [] []).tokenizerLoaded = false) ∧
    ((9 : Int) < MIN_PRIORITY ∨ MAX_PRIORITY < (9 : Int)) ∧
    ((translateSubmitRun (ServerState.mk false true [] []) "x" 9 0 0).1 =
      .error .modelNotLoaded ∧
    (translateSubmitRun (ServerState.mk false true [] []) "x" 9 0 0).1 ≠
      .error .badPriority ∧
    HError.status .modelNotLoaded = 500 ∧
    HError.detail .modelNotLoaded = "Model not loaded") :=
  ⟨Or.inl rfl, Or.inr (by decide),
    model_check_precedes_priority_validation (ServerState.mk false true [] [])
      "x" 9 0 0 (Or.inl rfl) (Or.inr (by decide))⟩

end MT

namespace MT

/-- C4 as frozen is violated: when the model is not loaded, a submission
with the out-of-range priority 9 is rejected with the 500 `modelNotLoaded`
server error — not with the 400 client error the claim promises for every
out-of-range submission. -/
theorem out_of_range_rejected_counterexample :
    (translateSubmitRun (ServerState.mk false false [] []) "x" 9 0 0).1 =
      .error .modelNotLoaded ∧
    (translateSubmitRun (ServerState.mk false false [] []) "x" 9 0 0).1 ≠
      .error .badPriority ∧
    HError.status .modelNotLoaded = 500 ∧ HError.status .badPriority = 400 := by
  refine ⟨rfl, ?_, rfl, rfl⟩
  intro hcon
  exact absurd (Except.error.inj hcon) (by simp)

/-- C4 (amended): while the model is loaded, every submission with priority
outside `[0, 3]` is rejected with the 400 client error before anything
happens: the state is returned unchanged, so the queue (and its size) is
unchanged and the submission counter is not incremented; the handler's
operation sequence is empty (no metric of any kind is touched). -/
theorem out_of_range_rejected_no_enqueue_no_metric
    (st : ServerState) (text : String) (prio : Int) (now jobId : Nat)
    (hm : st.modelLoaded = true) (ht : st.tokenizerLoaded = true)
    (hp : prio < MIN_PRIORITY ∨ MAX_PRIORITY < prio) :
    translateSubmitRun st text prio now jobId = (.error .badPriority, st) ∧
    HError.status .badPriority = 400 ∧
    (translateSubmitRun st text prio now jobId).2.queue = st.queue ∧
    (translateSubmitRun st text prio now jobId).2.counterLog = st.counterLog ∧
    (∀ tEnd outcome, translateEvents st text prio now tEnd jobId outcome =
      .error .badPriority) := by
  have hcond : ¬(st.modelLoaded = false ∨ st.tokenizerLoaded = false) := by
    simp [hm, ht]
  have hp' : prio < MIN_PRIORITY ∨ prio > MAX_PRIORITY := hp
  unfold translateSubmitRun
  rw [if_neg hcond, if_pos hp']
  refine ⟨rfl, rfl, rfl, rfl, ?_⟩
  intro tEnd outcome
  unfold translateEvents
  rw [if_neg hcond, if_pos hp']

/-- C4 (amended), witness: model loaded, priority 9 rejected with 400 and no
state change. -/
theorem out_of_range_rejected_no_enqueue_no_metric_witness :
    ((ServerState.mk true true [] []).modelLoaded = true) ∧
    ((ServerState.mk true true [] []).tokenizerLoaded = true) ∧
    ((9 : Int) < MIN_PRIORITY ∨ MAX_PRIORITY < (9 : Int)) ∧
    (translateSubmitRun (ServerState.mk true true [] []) "x" 9 0 0 =
      (.error .badPriority, ServerState.mk true true [] []) ∧
    HError.status .badPriority = 400 ∧
    (translateSubmitRun (ServerState.mk true true [] []) "x" 9 0 0).2.queue =
      (ServerState.mk true true [] []).queue ∧
    (translateSubmitRun (ServerState.mk true true [] []) "x" 9 0 0).2.counterLog =
      (ServerState.mk true true [] []).counterLog ∧
    (∀ tEnd outcome, translateEvents (ServerState.mk true true [] []) "x" 9 0
      tEnd 0 outcome = .error .badPriority)) :=
  ⟨rfl, rfl, Or.inr (by decide),
    out_of_range_rejected_no_enqueue_no_metric (ServerState.mk true true [] [])
      "x" 9 0 0 rfl rfl (Or.inr (by decide))⟩

/-- C5 as frozen is violated: in the handler's operation order for a valid
submission, the queue `put` (position 1 of the event list) happens before
the `REQUEST_COUNTER` increment (position 2) — the code increments the
counter after the enqueue, not before it. -/
theorem counter_before_enqueue_counterexample :
    translateEvents (ServerState.mk true true [] []) "hello" 1 5 9 0
        (.error "boom") =
      .ok [.createdFuture 0, .enqueued 1 5 "hello" 0, .incRequestCounter "1",
        .awaitedFuture 0] ∧
    [HEvent.createdFuture 0, .enqueued 1 5 "hello" 0, .incRequestCounter "1",
        .awaitedFuture 0].indexOf (.enqueued 1 5 "hello" 0) = 1 ∧
    [HEvent.createdFuture 0, .enqueued 1 5 "hello" 0, .incRequestCounter "1",
        .awaitedFuture 0].indexOf (.incRequestCounter "1") = 2 ∧
    (1 : Nat) < 2 :=
  ⟨rfl, by decide, by decide, by decide⟩

/-- C5 (amended): for every valid submission the handler enqueues the job
(position 1, after creating the future), then increments the submission
counter labeled by the job's priority (position 2, immediately after the
enqueue and exactly once), then awaits the result handle (position 3): the
counter increment always happens after the enqueue operation and before the
await, never before the enqueue. -/
theorem counter_incremented_after_enqueue_before_await
    (st : ServerState) (text : String) (prio : Int) (now tEnd jobId : Nat)
    (outcome : Except String TResult)
    (hm : st.modelLoaded = true) (ht : st.tokenizerLoaded = true)
    (hlo : MIN_PRIORITY ≤ prio) (hhi : prio ≤ MAX_PRIORITY) :
    ∃ evs, translateEvents st text prio now tEnd jobId outcome = .ok evs ∧
      evs[0]? = some (.createdFuture jobId) ∧
      evs[1]? = some (.enqueued prio now text jobId) ∧
      evs[2]? = some (.incRequestCounter (toString prio)) ∧
      evs[3]? = some (.awaitedFuture jobId) ∧
      evs.count (.incRequestCounter (toString prio)) = 1 := by
  have hcond : ¬(st.modelLoaded = false ∨ st.tokenizerLoaded = false) := by
    simp [hm, ht]
  have hp' : ¬(prio < MIN_PRIORITY ∨ prio > MAX_PRIORITY) := by
    simp only [MIN_PRIORITY, MAX_PRIORITY] at hlo hhi ⊢
    omega
  unfold translateEvents
  rw [if_neg hcond, if_neg hp']
  refine ⟨_, rfl, ?_, ?_, ?_, ?_, ?_⟩ <;>
    cases outcome <;> simp [List.count_cons]

end MT

namespace MT

/-- C5 (amended), witness: a valid priority-2 submission; the event list is
enqueue (1), counter increment (2), await (3). -/
theorem counter_incremented_after_enqueue_before_await_witness :
    ((ServerState.mk true true [] []).modelLoaded = true) ∧
    ((ServerState.mk true true [] []).tokenizerLoaded = true) ∧
    (MIN_PRIORITY ≤ (2 : Int)) ∧ ((2 : Int) ≤ MAX_PRIORITY) ∧
    (∃ evs, translateEvents (ServerState.mk true true [] []) "hello" 2 5 9 0
        (.error "boom") = .ok evs ∧
      evs[0]? = some (.createdFuture 0) ∧
      evs[1]? = some (.enqueued 2 5 "hello" 0) ∧
      evs[2]? = some (.incRequestCounter (toString (2 : Int))) ∧
      evs[3]? = some (.awaitedFuture 0) ∧
      evs.count (.incRequestCounter (toString (2 : Int))) = 1) :=
  ⟨rfl, rfl, by decide, by decide,
    counter_incremented_after_enqueue_before_await
      (ServerState.mk true true [] []) "hello" 2 5 9 0 (.error "boom")
      rfl rfl (by decide) (by decide)⟩

/-- C10: for two jobs with equal priority and identical enqueue timestamps,
the dequeue order is decided by the next component of the queue's ordering
tuple — the payload text — and not by submission order: in either insertion
order, the job with the lexicographically smaller text is dequeued first. -/
theorem tie_broken_by_text_not_submission_order (e1 e2 : Entry)
    (hp : e1.priority = e2.priority) (hc : e1.created_at = e2.created_at)
    (htext : e1.text < e2.text) :
    dequeueAll [e1, e2] = [e1, e2] ∧ dequeueAll [e2, e1] = [e1, e2] := by
  have h12 : entryLt e1 e2 = true :=
    entryLt_iff.mpr (Or.inr ⟨hp, Or.inr ⟨hc, htext⟩⟩)
  have h21 : entryLt e2 e1 = false := entryLt_asymm h12
  constructor <;> simp [dequeueAll, drainFuel, popMin, h12, h21]

/-- C10, witness: same priority 1, same timestamp 5; the job submitted
second but with the smaller text `"alpha"` is dequeued before the job
submitted first with text `"beta"`. -/
theorem tie_broken_by_text_not_submission_order_witness :
    ((Entry.mk 1 5 "alpha" 0).priority = (Entry.mk 1 5 "beta" 1).priority) ∧
    ((Entry.mk 1 5 "alpha" 0).created_at = (Entry.mk 1 5 "beta" 1).created_at) ∧
    ((Entry.mk 1 5 "alpha" 0).text < (Entry.mk 1 5 "beta" 1).text) ∧
    (dequeueAll [Entry.mk 1 5 "alpha" 0, Entry.mk 1 5 "beta" 1] =
      [Entry.mk 1 5 "alpha" 0, Entry.mk 1 5 "beta" 1] ∧
    dequeueAll [Entry.mk 1 5 "beta" 1, Entry.mk 1 5 "alpha" 0] =
      [Entry.mk 1 5 "alpha" 0, Entry.mk 1 5 "beta" 1]) :=
  ⟨rfl, rfl, by rw [String.lt_iff_toList_lt]; decide,
    tie_broken_by_text_not_submission_order (Entry.mk 1 5 "alpha" 0)
      (Entry.mk 1 5 "beta" 1) rfl rfl
      (by rw [String.lt_iff_toList_lt]; decide)⟩

end MT

namespace MT

/-- C2 fails on the code: two submissions with equal priority, the same
`time.time()` reading and the same text produce queue tuples tying on every
compared component, so the tuple comparison falls through to the two
`asyncio.Future`s and raises `TypeError`; `heappush` inside
`task_queue.put` performs exactly that comparison, so the second submission
crashes while enqueueing (the tuple is left appended but the put never
completes) and its result handle is resolved zero times — not exactly
once.  The spec's exactly-once property is the intent; the code's
`created_time` tiebreaker (which its own comment says "ensures FIFO") does
not make the tuples totally ordered. -/
theorem tied_submissions_make_put_raise :
    pyTupleLt (Entry.mk 2 7 "same" 0) (Entry.mk 2 7 "same" 1) =
      .error () ∧
    pyTupleLt (Entry.mk 2 7 "same" 1) (Entry.mk 2 7 "same" 0) =
      .error () ∧
    (heappushPy [Entry.mk 2 7 "same" 0] (Entry.mk 2 7 "same" 1)).1 =
      .error () :=
  ⟨rfl, rfl, rfl⟩

/-- C3 fails on the code: with the queue holding the minimum `A`
(priority 0) and two jobs `B`, `C` tied on (priority, created_time, text),
`heappop` inside `task_queue.get` reads `A` as the value to return,
overwrites the root with `C`, and then raises `TypeError` while re-sifting
`C` past `B`.  The exception reaches the worker loop's outer
`except Exception`, so the loop itself survives — but `A` has been silently
dropped: it is no longer in the heap and was never returned, so its result
handle is never resolved and `A` is never served, contradicting "never
silently drops the job" and "proceeds to dequeue and serve the next job". -/
theorem tied_heap_makes_pop_drop_min :
    pyTupleLt (Entry.mk 0 0 "a" 0) (Entry.mk 1 1 "t" 1) = .ok true ∧
    pyTupleLt (Entry.mk 0 0 "a" 0) (Entry.mk 1 1 "t" 2) = .ok true ∧
    (heappopPy [Entry.mk 0 0 "a" 0, Entry.mk 1 1 "t" 1,
      Entry.mk 1 1 "t" 2]).1 = .error () ∧
    (heappopPy [Entry.mk 0 0 "a" 0, Entry.mk 1 1 "t" 1,
      Entry.mk 1 1 "t" 2]).2 = [Entry.mk 1 1 "t" 1, Entry.mk 1 1 "t" 2] ∧
    Entry.mk 0 0 "a" 0 ∉ (heappopPy [Entry.mk 0 0 "a" 0,
      Entry.mk 1 1 "t" 1, Entry.mk 1 1 "t" 2]).2 :=
  ⟨rfl, rfl, rfl, by decide, by decide⟩

/-- C6 fails on the code: `IN_PROGRESS` is a prometheus_client `Counter`,
which has no `dec()` method, so the `finally` block raises `AttributeError`
on every iteration.  At the failing input (a priority-1 job, whether the
processor succeeds or fails) the iteration increments the in-progress
metric (before invoking the processor, positions 1 and 2) but never
decrements it: the completed operations contain no decrement and no
`task_done`, an `AttributeError` for `dec` is raised instead, and folding
the metric effect leaves the value at `v + 1 = 1` rather than returning it
to its prior value `0`. -/
theorem in_progress_never_decremented :
    (workerIterEvents (fun _ => Except.ok "bonjour")
        (Entry.mk 1 0 "hello" 0) 3)[1]? =
      some (.incInProgress (toString (1 : Int))) ∧
    (workerIterEvents (fun _ => Except.ok "bonjour")
        (Entry.mk 1 0 "hello" 0) 3)[2]? = some (.invokeProcessor "hello") ∧
    (workerIterEvents (fun _ => Except.ok "bonjour")
        (Entry.mk 1 0 "hello" 0) 3).foldl
      (applyInProgress (toString (1 : Int))) 0 = 1 ∧
    WEvent.decInProgress (toString (1 : Int)) ∉
      workerIterEvents (fun _ => Except.ok "bonjour")
        (Entry.mk 1 0 "hello" 0) 3 ∧
    WEvent.taskDone ∉
      workerIterEvents (fun _ => Except.ok "bonjour")
        (Entry.mk 1 0 "hello" 0) 3 ∧
    WEvent.raisedAttributeError "dec" ∈
      workerIterEvents (fun _ => Except.ok "bonjour")
        (Entry.mk 1 0 "hello" 0) 3 ∧
    (workerIterEvents (fun _ => Except.error "boom")
        (Entry.mk 1 0 "hello" 0) 3).foldl
      (applyInProgress (toString (1 : Int))) 0 = 1 ∧
    WEvent.decInProgress (toString (1 : Int)) ∉
      workerIterEvents (fun _ => Except.error "boom")
        (Entry.mk 1 0 "hello" 0) 3 ∧
    WEvent.taskDone ∉
      workerIterEvents (fun _ => Except.error "boom")
        (Entry.mk 1 0 "hello" 0) 3 ∧
    WEvent.raisedAttributeError "dec" ∈
      workerIterEvents (fun _ => Except.error "boom")
        (Entry.mk 1 0 "hello" 0) 3 :=
  ⟨by decide, by decide, by decide, by decide, by decide, by decide,
    by decide, by decide, by decide, by decide⟩

end MT
